import Mathlib

set_option maxRecDepth 20000

/-!
A shallow embedding of the propositional-logic core of
`src/truth_table_generator.py`.

Strings are modelled as `List Char`.  The source evaluates expressions by
textual substitution followed by a call to Python `eval`; the fragment of
Python expressions that can reach that `eval` call (literals `True`/`False`,
integer literals, `and`/`or`/`not`, comparisons `<= < ==`, parentheses and
identifiers) is modelled by the tokenizer/parser/interpreter `pyEvalTop`
below, with Python's short-circuit semantics and `NameError` for
identifiers.  Exceptions are modelled with `Except`: the bare
`except: return 0` of `LogicalExpression.evaluate` becomes the `runPyEval`
wrapper, while the uncaught `KeyError` of the substitution loop becomes the
`Except.error` of `substVarsLoop`.
-/

/-- The set of letters the source treats as operator letters
(`operators = {'A','N','D','O','R','I','F','T','U','E'}` in
`extract_variables`). -/
def opLetters : List Char := ['A', 'N', 'D', 'O', 'R', 'I', 'F', 'T', 'U', 'E']

/-- `expression.replace(' ', '')` from `LogicalExpression.__init__`. -/
def despace (s : List Char) : List Char := s.filter (fun c => !(c == ' '))

/-- Ordered duplicate-free insertion; folding it over a list yields the
sorted deduplicated list, i.e. Python's `sorted(list(set(...)))`. -/
def insertVar (c : Char) : List Char → List Char
  | [] => [c]
  | x :: xs =>
    if c < x then c :: x :: xs
    else if c = x then x :: xs
    else x :: insertVar c xs

/-- `LogicalExpression.extract_variables`: all `[A-Za-z]` characters of the
(despaced) expression, minus `opLetters`, deduplicated and sorted. -/
def extract_variables (s : List Char) : List Char :=
  ((s.filter (fun c => c.isAlpha)).filter (fun c => !(opLetters.contains c))).foldl
    (fun acc c => insertVar c acc) []

/-- Prefix test used by `strReplace`. -/
def startsWith : List Char → List Char → Bool
  | [], _ => true
  | _ :: _, [] => false
  | a :: as, b :: bs => a == b && startsWith as bs

/-- Fuel-driven body of Python `str.replace`: left-to-right, non-overlapping,
replaced text is not rescanned.  The fuel is always at least the length of
the remaining string, so the `0` case only ever sees `[]`. -/
def strReplaceAux (old new : List Char) : Nat → List Char → List Char
  | 0, s => s
  | _ + 1, [] => []
  | f + 1, c :: rest =>
    if !old.isEmpty && startsWith old (c :: rest) then
      new ++ strReplaceAux old new f (rest.drop (old.length - 1))
    else
      c :: strReplaceAux old new f rest

/-- Python `s.replace(old, new)` for nonempty `old`. -/
def strReplace (old new s : List Char) : List Char := strReplaceAux old new s.length s

/-- `LogicalExpression.parse_expression`: uppercase, then the exact
replacement chain of the source, in source order. -/
def parse_expression (expr0 : List Char) : List Char :=
  let e := expr0.map Char.toUpper
  let e := strReplace ("AND".data) (['&']) e
  let e := strReplace ("OR".data) (['|']) e
  let e := strReplace ("NOT".data) (['~']) e
  let e := strReplace ("IMPLIES".data) (['>']) e
  let e := strReplace ("IFF".data) (['=']) e
  let e := strReplace ("->".data) (['>']) e
  let e := strReplace ("<->".data) (['=']) e
  let e := strReplace ("!".data) (['~']) e
  let e := strReplace (['∧']) (['&']) e
  let e := strReplace (['∨']) (['|']) e
  let e := strReplace (['¬']) (['~']) e
  let e := strReplace (['→']) (['>']) e
  strReplace (['↔']) (['=']) e

/-- The state built by `LogicalExpression.__init__`. -/
structure LogicalExpression where
  expression : List Char
  vars : List Char
  parsed_expr : List Char

/-- `LogicalExpression(expression)`: strip spaces, extract variables,
pre-translate operators. -/
def mkExpr (input : List Char) : LogicalExpression :=
  let ex := despace input
  { expression := ex
    vars := extract_variables ex
    parsed_expr := parse_expression ex }

/-- Python tokens of the expression strings that reach `eval`. -/
inductive PyTok where
  | ptrue | pfalse | pand | por | pnot
  | ple | plt | peq
  | lparen | rparen
  | num (n : Nat)
  | name
  deriving DecidableEq

/-- Digit run to numeral. -/
def digitsToNat (ds : List Char) : Nat := ds.foldl (fun n c => n * 10 + (c.toNat - 48)) 0

/-- Fuel-driven tokenizer for the Python fragment: identifiers are maximal
letter runs (keywords `True False and or not`, all else a name), numerals
are maximal digit runs, plus `<= < == ( )` and spaces; any other character
is a syntax error. -/
def pyTokenizeAux : Nat → List Char → Except Unit (List PyTok)
  | 0, _ => .error ()
  | _ + 1, [] => .ok []
  | f + 1, c :: rest =>
    if c == ' ' then pyTokenizeAux f rest
    else if c.isAlpha then
      let run := (c :: rest).takeWhile Char.isAlpha
      let rem := (c :: rest).dropWhile Char.isAlpha
      let tok :=
        if run = ("True".data) then PyTok.ptrue
        else if run = ("False".data) then PyTok.pfalse
        else if run = ("and".data) then PyTok.pand
        else if run = ("or".data) then PyTok.por
        else if run = ("not".data) then PyTok.pnot
        else PyTok.name
      match pyTokenizeAux f rem with
      | .ok ts => .ok (tok :: ts)
      | .error err => .error err
    else if c.isDigit then
      let run := (c :: rest).takeWhile Char.isDigit
      let rem := (c :: rest).dropWhile Char.isDigit
      match pyTokenizeAux f rem with
      | .ok ts => .ok (PyTok.num (digitsToNat run) :: ts)
      | .error err => .error err
    else if c == '<' then
      match rest with
      | '=' :: rest2 =>
        match pyTokenizeAux f rest2 with
        | .ok ts => .ok (PyTok.ple :: ts)
        | .error err => .error err
      | _ =>
        match pyTokenizeAux f rest with
        | .ok ts => .ok (PyTok.plt :: ts)
        | .error err => .error err
    else if c == '=' then
      match rest with
      | '=' :: rest2 =>
        match pyTokenizeAux f rest2 with
        | .ok ts => .ok (PyTok.peq :: ts)
        | .error err => .error err
      | _ => .error ()
    else if c == '(' then
      match pyTokenizeAux f rest with
      | .ok ts => .ok (PyTok.lparen :: ts)
      | .error err => .error err
    else if c == ')' then
      match pyTokenizeAux f rest with
      | .ok ts => .ok (PyTok.rparen :: ts)
      | .error err => .error err
    else .error ()

/-- Tokenize with enough fuel. -/
def pyTokenize (s : List Char) : Except Unit (List PyTok) := pyTokenizeAux (s.length + 1) s

/-- Comparison operators of the fragment. -/
inductive CmpOp where
  | le | lt | eq
  deriving DecidableEq

/-- ASTs of the Python fragment.  A chained comparison `a < b < c` is
desugared by the parser into `pand (pcmp lt a b) (pcmp lt b c)`, which has
the same value and the same error behaviour since operands are pure. -/
inductive PyExpr where
  | lit (n : Nat)
  | pname
  | por (a b : PyExpr)
  | pand (a b : PyExpr)
  | pnot (a : PyExpr)
  | pcmp (op : CmpOp) (a b : PyExpr)
  deriving DecidableEq

/-- Which tokens are comparison operators. -/
def cmpTok : PyTok → Option CmpOp
  | .ple => some .le
  | .plt => some .lt
  | .peq => some .eq
  | _ => none

/-- Parser modes: Python precedence `or < and < not < comparison < atom`,
with `Rest` modes carrying the left-associative accumulators. -/
inductive PMode where
  | mOr
  | mOrRest (acc : PyExpr)
  | mAnd
  | mAndRest (acc : PyExpr)
  | mNeg
  | mCmp
  | mCmpRest (acc : Option PyExpr) (prev : PyExpr)
  | mAtom

/-- Fuel-driven recursive-descent parser for the Python fragment. -/
def parseP : Nat → PMode → List PyTok → Except Unit (PyExpr × List PyTok)
  | 0, _, _ => .error ()
  | f + 1, .mOr, toks =>
    match parseP f .mAnd toks with
    | .ok (a, t) => parseP f (.mOrRest a) t
    | .error err => .error err
  | f + 1, .mOrRest acc, toks =>
    match toks with
    | .por :: t =>
      match parseP f .mAnd t with
      | .ok (b, t2) => parseP f (.mOrRest (.por acc b)) t2
      | .error err => .error err
    | _ => .ok (acc, toks)
  | f + 1, .mAnd, toks =>
    match parseP f .mNeg toks with
    | .ok (a, t) => parseP f (.mAndRest a) t
    | .error err => .error err
  | f + 1, .mAndRest acc, toks =>
    match toks with
    | .pand :: t =>
      match parseP f .mNeg t with
      | .ok (b, t2) => parseP f (.mAndRest (.pand acc b)) t2
      | .error err => .error err
    | _ => .ok (acc, toks)
  | f + 1, .mNeg, toks =>
    match toks with
    | .pnot :: t =>
      match parseP f .mNeg t with
      | .ok (a, t2) => .ok (.pnot a, t2)
      | .error err => .error err
    | _ => parseP f .mCmp toks
  | f + 1, .mCmp, toks =>
    match parseP f .mAtom toks with
    | .ok (a, t) => parseP f (.mCmpRest none a) t
    | .error err => .error err
  | f + 1, .mCmpRest acc prev, toks =>
    match toks with
    | tk :: t =>
      match cmpTok tk with
      | some op =>
        match parseP f .mAtom t with
        | .ok (b, t2) =>
          let c := PyExpr.pcmp op prev b
          parseP f (.mCmpRest (some (match acc with
            | none => c
            | some a => PyExpr.pand a c)) b) t2
        | .error err => .error err
      | none => .ok ((match acc with | none => prev | some a => a), toks)
    | [] => .ok ((match acc with | none => prev | some a => a), [])
  | f + 1, .mAtom, toks =>
    match toks with
    | .num n :: t => .ok (.lit n, t)
    | .ptrue :: t => .ok (.lit 1, t)
    | .pfalse :: t => .ok (.lit 0, t)
    | .name :: t => .ok (.pname, t)
    | .lparen :: t =>
      match parseP f .mOr t with
      | .ok (a, .rparen :: t2) => .ok (a, t2)
      | _ => .error ()
    | _ => .error ()

/-- Parse a whole token list (trailing tokens are a syntax error). -/
def pyParse (toks : List PyTok) : Except Unit PyExpr :=
  match parseP (10 * (toks.length + 1)) .mOr toks with
  | .ok (a, []) => .ok a
  | _ => .error ()

/-- Python truthiness on the (int-encoded) values of the fragment. -/
def truthy (n : Nat) : Bool := !(n == 0)

/-- Comparison semantics; booleans encoded as `0`/`1`. -/
def evalCmp : CmpOp → Nat → Nat → Nat
  | .le, a, b => if a ≤ b then 1 else 0
  | .lt, a, b => if a < b then 1 else 0
  | .eq, a, b => if a = b then 1 else 0

/-- Evaluation of the fragment: `and`/`or` short-circuit and return an
operand, `not` returns a boolean, a bare name is a runtime `NameError`. -/
def evalPy : PyExpr → Except Unit Nat
  | .lit n => .ok n
  | .pname => .error ()
  | .por a b =>
    match evalPy a with
    | .ok va => if truthy va then .ok va else evalPy b
    | .error err => .error err
  | .pand a b =>
    match evalPy a with
    | .ok va => if truthy va then evalPy b else .ok va
    | .error err => .error err
  | .pnot a =>
    match evalPy a with
    | .ok va => .ok (if truthy va then 0 else 1)
    | .error err => .error err
  | .pcmp op a b =>
    match evalPy a with
    | .ok va =>
      match evalPy b with
      | .ok vb => .ok (evalCmp op va vb)
      | .error err => .error err
    | .error err => .error err

/-- `eval(expr)` on the reachable fragment: tokenize, parse, evaluate.
Tokenizer/parser errors model `SyntaxError`, evaluation errors model
runtime errors such as `NameError`; all are caught by the source's bare
`except`. -/
def pyEvalTop (s : List Char) : Except Unit Nat :=
  match pyTokenize s with
  | .error err => .error err
  | .ok toks =>
    match pyParse toks with
    | .error err => .error err
    | .ok ast => evalPy ast

/-- The `try: ... eval ... except: return 0` of the source. -/
def runPyEval (s : List Char) : Nat :=
  match pyEvalTop s with
  | .ok v => v
  | .error _ => 0

/-- One match attempt of the regex `(\d+)\s*<=\s*(\d+)` at the current
position: a digit run, optional spaces, `<=`, optional spaces, a digit
run. -/
def tryImplMatch (s : List Char) : Option (List Char × List Char × List Char) :=
  let d1 := s.takeWhile Char.isDigit
  if d1.isEmpty then none
  else
    let s1 := (s.dropWhile Char.isDigit).dropWhile (fun c => c == ' ')
    match s1 with
    | '<' :: '=' :: s2 =>
      let s3 := s2.dropWhile (fun c => c == ' ')
      let d2 := s3.takeWhile Char.isDigit
      if d2.isEmpty then none
      else some (d1, d2, s3.dropWhile Char.isDigit)
    | _ => none

/-- Fuel-driven scan of `re.sub(r'(\d+)\s*<=\s*(\d+)', r'(not \1 or \2)', -)`:
leftmost non-overlapping matches, continuing after each replacement. -/
def implSubAux : Nat → List Char → List Char
  | 0, s => s
  | _ + 1, [] => []
  | f + 1, c :: rest =>
    match tryImplMatch (c :: rest) with
    | some (d1, d2, s2) =>
      ("(not ".data) ++ d1 ++ (" or ".data) ++ d2 ++ [')'] ++ implSubAux f s2
    | none => c :: implSubAux f rest

/-- The regex substitution of line 68 of the source. -/
def implSub (s : List Char) : List Char := implSubAux (s.length + 1) s

/-- Lines 61-72 of `LogicalExpression.evaluate`: operator-symbol
replacements, the regex substitution, then `1`/`0` to `True`/`False`,
in source order. -/
def applyOps (s : List Char) : List Char :=
  let e := strReplace (['&']) (" and ".data) s
  let e := strReplace (['|']) (" or ".data) e
  let e := strReplace (['~']) (" not ".data) e
  let e := strReplace (['>']) (" <= ".data) e
  let e := strReplace (['=']) (" == ".data) e
  let e := implSub e
  let e := strReplace (['1']) ("True".data) e
  strReplace (['0']) ("False".data) e

/-- The substitution loop of `LogicalExpression.evaluate`
(`for var in self.variables: expr = expr.replace(var, str(int(values[var])))`).
A missing variable is an uncaught `KeyError`, modelled as `Except.error`. -/
def substVarsLoop (vars : List Char) (vv : List (Char × Bool)) (expr : List Char) :
    Except Unit (List Char) :=
  match vars with
  | [] => .ok expr
  | v :: rest =>
    match List.lookup v vv with
    | none => .error ()
    | some b => substVarsLoop rest vv (strReplace [v] (if b then ['1'] else ['0']) expr)

/-- `LogicalExpression.evaluate`: substitute the variable values, apply the
operator replacements, run `eval` under the catch-all. -/
def evaluate (e : LogicalExpression) (vv : List (Char × Bool)) : Except Unit Nat :=
  match substVarsLoop e.vars vv e.parsed_expr with
  | .error err => .error err
  | .ok s => .ok (runPyEval (applyOps s))

/-- `itertools.product([False, True], repeat=n)`: first component outermost,
so the first variable varies slowest. -/
def combos : Nat → List (List Bool)
  | 0 => [[]]
  | n + 1 => ((combos n).map (false :: ·)) ++ ((combos n).map (true :: ·))

/-- `int(val)` on a boolean. -/
def b2i (b : Bool) : Nat := if b then 1 else 0

/-- The MSB-first bit representation of `i` on `k` bits (the enumeration
order claimed in spec §4.4). -/
def natToBits : Nat → Nat → List Bool
  | 0, _ => []
  | k + 1, i => (if 2 ^ k ≤ i then true else false) :: natToBits k (i % 2 ^ k)

/-- The row-building loop of `TruthTableGenerator.create_truth_table`:
for each combination, `dict(zip(variables, combination))`, evaluate, and
append `[int(v) for v in combination] + [result]`.  An exception from
`evaluate` propagates. -/
def buildRows (e : LogicalExpression) : List (List Bool) → Except Unit (List (List Nat))
  | [] => .ok []
  | combo :: rest =>
    match evaluate e (e.vars.zip combo) with
    | .ok r =>
      match buildRows e rest with
      | .ok rows => .ok ((combo.map b2i ++ [r]) :: rows)
      | .error err => .error err
    | .error err => .error err

/-- `TruthTableGenerator.create_truth_table`: `self.truth_table_data`,
i.e. one row per element of `itertools.product([False, True], repeat=k)`.
(The summary line is inserted only into the GUI tree, not into the data.) -/
def create_truth_table (e : LogicalExpression) : Except Unit (List (List Nat)) :=
  buildRows e (combos e.vars.length)

/-- `results = [row[-1] for row in self.truth_table_data]`. -/
def tableResults (rows : List (List Nat)) : List Nat := rows.map (fun r => r.getLastD 0)

/-- The three outcomes of the classification block of
`TruthTableGenerator.analyze_expression`. -/
inductive Classification where
  | tautology | contradiction | contingency
  deriving DecidableEq

/-- The classification logic of `analyze_expression`:
`true_count = sum(results)`, `false_count = total - true_count` (a Python
int, hence the `Int` subtraction), tautology when `true_count == total`,
else contradiction when `false_count == total`, else contingency. -/
def classify (results : List Nat) : Classification :=
  let true_count := results.sum
  let total_count := results.length
  if true_count = total_count then .tautology
  else if (total_count : Int) - (true_count : Int) = (total_count : Int) then .contradiction
  else .contingency

/-- `TruthTableGenerator.identify_binary_operation`: the 16-entry pattern
dictionary with the `"Custom operation"` default of `dict.get`. -/
def identify_binary_operation (results : List Nat) : String :=
  if results = [0, 0, 0, 0] then "Contradiction (False)"
  else if results = [0, 0, 0, 1] then "Conjunction (AND)"
  else if results = [0, 0, 1, 0] then "Material non-implication"
  else if results = [0, 0, 1, 1] then "First projection"
  else if results = [0, 1, 0, 0] then "Converse non-implication"
  else if results = [0, 1, 0, 1] then "Second projection"
  else if results = [0, 1, 1, 0] then "Exclusive disjunction (XOR)"
  else if results = [0, 1, 1, 1] then "Disjunction (OR)"
  else if results = [1, 0, 0, 0] then "Joint denial (NOR)"
  else if results = [1, 0, 0, 1] then "Biconditional (XNOR)"
  else if results = [1, 0, 1, 0] then "Negation (NOT B)"
  else if results = [1, 0, 1, 1] then "Converse implication"
  else if results = [1, 1, 0, 0] then "Negation (NOT A)"
  else if results = [1, 1, 0, 1] then "Material implication"
  else if results = [1, 1, 1, 0] then "Alternative denial (NAND)"
  else if results = [1, 1, 1, 1] then "Tautology (True)"
  else "Custom operation"

/-! ### Properties of variable extraction -/

theorem insertVar_mem (c : Char) (l : List Char) (x : Char) :
    x ∈ insertVar c l ↔ x = c ∨ x ∈ l := by
  induction l with
  | nil => simp [insertVar]
  | cons a as ih =>
    by_cases h1 : c < a
    · simp [insertVar, h1]
    · by_cases h2 : c = a
      · subst h2
        rw [insertVar, if_neg h1, if_pos rfl]
        simp only [List.mem_cons]
        tauto
      · simp only [insertVar, if_neg h1, if_neg h2, List.mem_cons, ih]
        tauto

theorem insertVar_pairwise (c : Char) (l : List Char)
    (h : l.Pairwise (· < ·)) : (insertVar c l).Pairwise (· < ·) := by
  induction l with
  | nil => simp [insertVar]
  | cons a as ih =>
    rw [List.pairwise_cons] at h
    obtain ⟨ha, has⟩ := h
    by_cases h1 : c < a
    · rw [insertVar, if_pos h1, List.pairwise_cons]
      refine ⟨?_, by rw [List.pairwise_cons]; exact ⟨ha, has⟩⟩
      intro b hb
      rcases List.mem_cons.mp hb with rfl | hb
      · exact h1
      · exact h1.trans (ha b hb)
    · by_cases h2 : c = a
      · subst h2
        rw [insertVar, if_neg h1, if_pos rfl, List.pairwise_cons]
        exact ⟨ha, has⟩
      · rw [insertVar, if_neg h1, if_neg h2, List.pairwise_cons]
        refine ⟨?_, ih has⟩
        intro b hb
        rcases (insertVar_mem c as b).mp hb with rfl | hb
        · exact lt_of_le_of_ne (not_lt.mp h1) (fun h => h2 h.symm)
        · exact ha b hb

theorem foldl_insert_mem (l : List Char) (acc : List Char) (x : Char) :
    x ∈ l.foldl (fun a c => insertVar c a) acc ↔ x ∈ acc ∨ x ∈ l := by
  induction l generalizing acc with
  | nil => simp
  | cons a as ih =>
    simp only [List.foldl_cons, ih, insertVar_mem, List.mem_cons]
    tauto

theorem foldl_insert_pairwise (l : List Char) (acc : List Char)
    (h : acc.Pairwise (· < ·)) :
    (l.foldl (fun a c => insertVar c a) acc).Pairwise (· < ·) := by
  induction l generalizing acc with
  | nil => exact h
  | cons a as ih => exact ih _ (insertVar_pairwise a acc h)

theorem extract_variables_pairwise (s : List Char) :
    (extract_variables s).Pairwise (· < ·) :=
  foldl_insert_pairwise _ _ (by simp)

theorem extract_variables_mem (s : List Char) (c : Char) :
    c ∈ extract_variables s ↔ c ∈ s ∧ c.isAlpha = true ∧ c ∉ opLetters := by
  rw [extract_variables, foldl_insert_mem]
  simp [List.mem_filter]
  tauto

theorem mem_despace (s : List Char) (c : Char) :
    c ∈ despace s ↔ c ∈ s ∧ ¬(c = ' ') := by
  simp [despace, List.mem_filter]

/-! ### Properties of the assignment enumeration -/

theorem combos_length (k : Nat) : (combos k).length = 2 ^ k := by
  induction k with
  | zero => rfl
  | succ n ih => simp [combos, ih, pow_succ]; ring

theorem mem_combos_iff (k : Nat) (v : List Bool) : v ∈ combos k ↔ v.length = k := by
  induction k generalizing v with
  | zero =>
    simp only [combos, List.mem_singleton, List.length_eq_zero]
  | succ n ih =>
    simp only [combos, List.mem_append, List.mem_map]
    constructor
    · rintro (⟨w, hw, rfl⟩ | ⟨w, hw, rfl⟩) <;> simp [(ih w).mp hw]
    · intro hv
      match v, hv with
      | b :: w, hv =>
        have hw : w.length = n := by simpa using hv
        cases b
        · exact Or.inl ⟨w, (ih w).mpr hw, rfl⟩
        · exact Or.inr ⟨w, (ih w).mpr hw, rfl⟩

theorem combos_nodup (k : Nat) : (combos k).Nodup := by
  induction k with
  | zero => simp [combos]
  | succ n ih =>
    rw [combos]
    refine List.Nodup.append ?_ ?_ ?_
    · exact ih.map (fun a b h => by simpa using h)
    · exact ih.map (fun a b h => by simpa using h)
    · intro v hv hv'
      obtain ⟨w, _, rfl⟩ := List.mem_map.mp hv
      obtain ⟨w', _, h⟩ := List.mem_map.mp hv'
      simp at h

theorem combos_eq_range_map (k : Nat) :
    combos k = (List.range (2 ^ k)).map (natToBits k) := by
  induction k with
  | zero => rfl
  | succ n ih =>
    have h2 : 2 ^ (n + 1) = 2 ^ n + 2 ^ n := by ring
    rw [combos, ih, h2, List.range_add, List.map_append, List.map_map, List.map_map,
      List.map_map]
    congr 1
    · refine List.map_congr_left ?_
      intro i hi
      have hi' : i < 2 ^ n := List.mem_range.mp hi
      simp only [Function.comp_apply, natToBits, if_neg (not_le.mpr hi'),
        Nat.mod_eq_of_lt hi']
    · refine List.map_congr_left ?_
      intro i hi
      have hi' : i < 2 ^ n := List.mem_range.mp hi
      simp only [Function.comp_apply, natToBits, if_pos (Nat.le_add_right _ _),
        Nat.add_mod_left, Nat.mod_eq_of_lt hi']

theorem natToBits_zero (k : Nat) : natToBits k 0 = List.replicate k false := by
  induction k with
  | zero => rfl
  | succ n ih =>
    have h : ¬ 2 ^ n ≤ 0 := by
      have := pow_pos (show (0 : Nat) < 2 by norm_num) n
      omega
    simp [natToBits, h, ih, List.replicate_succ]

theorem natToBits_last (k : Nat) : natToBits k (2 ^ k - 1) = List.replicate k true := by
  induction k with
  | zero => rfl
  | succ n ih =>
    have h1 : (1 : Nat) ≤ 2 ^ n := pow_pos (show (0 : Nat) < 2 by norm_num) n
    have h2 : 2 ^ (n + 1) - 1 = 2 ^ n + (2 ^ n - 1) := by
      have : 2 ^ (n + 1) = 2 ^ n + 2 ^ n := by ring
      omega
    have h3 : 2 ^ n ≤ 2 ^ (n + 1) - 1 := by omega
    rw [natToBits, if_pos h3, h2, Nat.add_mod_left, Nat.mod_eq_of_lt (by omega), ih,
      List.replicate_succ]

/-! ### Totality of evaluation under a total assignment -/

theorem lookup_zip_isSome (vars : List Char) (combo : List Bool) (v : Char)
    (hv : v ∈ vars) (hl : vars.length = combo.length) :
    (List.lookup v (vars.zip combo)).isSome = true := by
  induction vars generalizing combo with
  | nil => simp at hv
  | cons a as ih =>
    match combo with
    | b :: bs =>
      rw [List.zip_cons_cons, List.lookup]
      by_cases h : v == a
      · simp [h]
      · have hv' : v ∈ as := by
          rcases List.mem_cons.mp hv with rfl | hv'
          · simp at h
          · exact hv'
        simp only [h]
        exact ih bs hv' (by simpa using hl)

theorem substVarsLoop_ok (vars : List Char) (vv : List (Char × Bool))
    (expr : List Char) (h : ∀ v ∈ vars, (List.lookup v vv).isSome = true) :
    ∃ s, substVarsLoop vars vv expr = .ok s := by
  induction vars generalizing expr with
  | nil => exact ⟨expr, rfl⟩
  | cons a as ih =>
    have ha : (List.lookup a vv).isSome = true := h a (List.mem_cons_self a as)
    obtain ⟨b, hb⟩ := Option.isSome_iff_exists.mp ha
    rw [substVarsLoop, hb]
    exact ih _ (fun v hv => h v (List.mem_cons_of_mem a hv))

theorem evaluate_ok (e : LogicalExpression) (vv : List (Char × Bool))
    (h : ∀ v ∈ e.vars, (List.lookup v vv).isSome = true) :
    ∃ n, evaluate e vv = .ok n := by
  obtain ⟨s, hs⟩ := substVarsLoop_ok e.vars vv e.parsed_expr h
  exact ⟨runPyEval (applyOps s), by rw [evaluate, hs]⟩

theorem buildRows_ok (e : LogicalExpression) (l : List (List Bool))
    (h : ∀ combo ∈ l, combo.length = e.vars.length) :
    ∃ rows, buildRows e l = .ok rows ∧ rows.length = l.length ∧
      rows.map (List.take e.vars.length) = l.map (List.map b2i) := by
  induction l with
  | nil => exact ⟨[], rfl, rfl, rfl⟩
  | cons combo rest ih =>
    have hc : combo.length = e.vars.length := h combo (List.mem_cons_self _ _)
    obtain ⟨r, hr⟩ := evaluate_ok e (e.vars.zip combo)
      (fun v hv => lookup_zip_isSome e.vars combo v hv hc.symm)
    obtain ⟨rows, hrows, hlen, hmap⟩ := ih (fun c hcm => h c (List.mem_cons_of_mem _ hcm))
    refine ⟨(combo.map b2i ++ [r]) :: rows, ?_, by simp [hlen], ?_⟩
    · rw [buildRows, hr, hrows]
    · rw [List.map_cons, List.map_cons, hmap]
      congr 1
      have hlen2 : (combo.map b2i).length = e.vars.length := by simp [hc]
      rw [← hlen2, List.take_left]

theorem create_truth_table_ok (e : LogicalExpression) :
    ∃ rows, create_truth_table e = .ok rows ∧
      rows.length = 2 ^ e.vars.length ∧
      rows.map (List.take e.vars.length) =
        (combos e.vars.length).map (List.map b2i) := by
  obtain ⟨rows, h1, h2, h3⟩ := buildRows_ok e (combos e.vars.length)
    (fun combo hc => (mem_combos_iff _ combo).mp hc)
  exact ⟨rows, h1, by rw [h2, combos_length], h3⟩

/-! ### Classification arithmetic -/

theorem sum_le_length (l : List Nat) (h : ∀ r ∈ l, r ≤ 1) : l.sum ≤ l.length := by
  induction l with
  | nil => simp
  | cons a as ih =>
    have ha : a ≤ 1 := h a (List.mem_cons_self _ _)
    have := ih (fun r hr => h r (List.mem_cons_of_mem a hr))
    simp only [List.sum_cons, List.length_cons]
    omega

theorem sum_eq_length_iff (l : List Nat) (h : ∀ r ∈ l, r ≤ 1) :
    l.sum = l.length ↔ ∀ r ∈ l, r = 1 := by
  induction l with
  | nil => simp
  | cons a as ih =>
    have ha : a ≤ 1 := h a (List.mem_cons_self _ _)
    have h' : ∀ r ∈ as, r ≤ 1 := fun r hr => h r (List.mem_cons_of_mem a hr)
    have hle := sum_le_length as h'
    simp only [List.sum_cons, List.length_cons, List.mem_cons, forall_eq_or_imp]
    rw [← ih h']
    omega

/-! ### Claim theorems -/

/-- C1: for every expression, the generated truth table
(`create_truth_table`, i.e. `self.truth_table_data`) has exactly `2^k` rows
for `k` the length of the extracted variable list; the variable list is
sorted ascending (so its first entry is the lexicographically smallest
variable); the assignment columns of row `i` are exactly the MSB-first bits
of `i` with `false = 0`, `true = 1` (one row per assignment, no duplicates,
all-false first, all-true last), and for two variables the assignment order
is (F,F), (F,T), (T,F), (T,T). -/
theorem c1_enumeration_order (input : List Char) :
    List.Pairwise (· < ·) (mkExpr input).vars ∧
    (∃ rows, create_truth_table (mkExpr input) = .ok rows ∧
      rows.length = 2 ^ (mkExpr input).vars.length ∧
      rows.map (List.take (mkExpr input).vars.length) =
        (combos (mkExpr input).vars.length).map (List.map b2i)) ∧
    combos (mkExpr input).vars.length =
      (List.range (2 ^ (mkExpr input).vars.length)).map
        (natToBits (mkExpr input).vars.length) ∧
    (∀ v : List Bool,
      v ∈ combos (mkExpr input).vars.length ↔ v.length = (mkExpr input).vars.length) ∧
    (combos (mkExpr input).vars.length).Nodup ∧
    natToBits (mkExpr input).vars.length 0 =
      List.replicate (mkExpr input).vars.length false ∧
    natToBits (mkExpr input).vars.length (2 ^ (mkExpr input).vars.length - 1) =
      List.replicate (mkExpr input).vars.length true ∧
    combos 2 = [[false, false], [false, true], [true, false], [true, true]] := by
  refine ⟨extract_variables_pairwise _, create_truth_table_ok _,
    combos_eq_range_map _, fun v => mem_combos_iff _ v, combos_nodup _,
    natToBits_zero _, natToBits_last _, by decide⟩

/-- C5: the code has no variable ceiling at all: `create_truth_table`
succeeds and enumerates the full `2^k` rows for every expression state,
whatever the number of variables; no `TooManyVariablesError` exists
anywhere in the pipeline (the error type of the model is only the
`KeyError` of a partial assignment, which a complete enumeration never
triggers).  This exhibits the divergence from the claimed ceiling. -/
theorem c5_no_variable_ceiling (e : LogicalExpression) :
    ∃ rows, create_truth_table e = .ok rows ∧ rows.length = 2 ^ e.vars.length := by
  obtain ⟨rows, h1, h2, _⟩ := create_truth_table_ok e
  exact ⟨rows, h1, h2⟩

/-- C2: on every nonempty result sequence whose entries are the boolean
codes 0/1 (as the results of a complete truth-table row sequence are, spec
§3), the classification block of `analyze_expression` yields Tautology
exactly when every result is true (`= 1`), Contradiction exactly when every
result is false (`= 0`), and Contingency exactly otherwise. -/
theorem c2_classification (results : List Nat) (hne : results ≠ [])
    (hb : ∀ r ∈ results, r = 0 ∨ r = 1) :
    (classify results = .tautology ↔ ∀ r ∈ results, r = 1) ∧
    (classify results = .contradiction ↔ ∀ r ∈ results, r = 0) ∧
    (classify results = .contingency ↔
      ¬(∀ r ∈ results, r = 1) ∧ ¬(∀ r ∈ results, r = 0)) := by
  have hb' : ∀ r ∈ results, r ≤ 1 := fun r hr => by rcases hb r hr with h | h <;> omega
  have htaut : results.sum = results.length ↔ ∀ r ∈ results, r = 1 :=
    sum_eq_length_iff results hb'
  have hzero : results.sum = 0 ↔ ∀ r ∈ results, r = 0 := List.sum_eq_zero_iff
  have hlen : 0 < results.length := List.length_pos.mpr hne
  have hint : ((results.length : Int) - (results.sum : Int) = (results.length : Int)) ↔
      results.sum = 0 := by omega
  have hnot_both : ¬((∀ r ∈ results, r = 1) ∧ (∀ r ∈ results, r = 0)) := by
    rintro ⟨h1, h0⟩
    match results, hne with
    | r :: rest, _ =>
      have := h1 r (List.mem_cons_self _ _)
      have := h0 r (List.mem_cons_self _ _)
      omega
  rw [classify]
  by_cases h1 : results.sum = results.length
  · have hall1 := htaut.mp h1
    simp only [h1, if_pos rfl]
    refine ⟨⟨fun _ => hall1, fun _ => rfl⟩, ?_, ?_⟩
    · constructor
      · intro h; cases h
      · intro h0; exact absurd ⟨hall1, h0⟩ hnot_both
    · constructor
      · intro h; cases h
      · intro ⟨hn1, _⟩; exact absurd hall1 hn1
  · simp only [if_neg h1]
    by_cases h0 : results.sum = 0
    · have hall0 := hzero.mp h0
      rw [if_pos (hint.mpr h0)]
      refine ⟨?_, ⟨fun _ => hall0, fun _ => rfl⟩, ?_⟩
      · constructor
        · intro h; cases h
        · intro hall1; exact absurd (htaut.mpr hall1) h1
      · constructor
        · intro h; cases h
        · intro ⟨_, hn0⟩; exact absurd hall0 hn0
    · rw [if_neg (fun hc => h0 (hint.mp hc))]
      refine ⟨?_, ?_, ?_⟩
      · constructor
        · intro h; cases h
        · intro hall1; exact absurd (htaut.mpr hall1) h1
      · constructor
        · intro h; cases h
        · intro hall0; exact absurd (hzero.mpr hall0) h0
      · constructor
        · intro _
          exact ⟨fun hall1 => h1 (htaut.mpr hall1), fun hall0 => h0 (hzero.mpr hall0)⟩
        · intro _; rfl

/-- Closed witness for `c2_classification` at the concrete result sequence
`[1, 0]` of a contingent one-variable table. -/
theorem c2_classification_witness :
    (classify [1, 0] = .tautology ↔ ∀ r ∈ [1, 0], r = 1) ∧
    (classify [1, 0] = .contradiction ↔ ∀ r ∈ [1, 0], r = 0) ∧
    (classify [1, 0] = .contingency ↔
      ¬(∀ r ∈ [1, 0], r = 1) ∧ ¬(∀ r ∈ [1, 0], r = 0)) :=
  c2_classification [1, 0] (by decide) (by decide)

/-- C9: the extracted variable list is strictly sorted (hence
duplicate-free), and a character occurs in it exactly when it is an
ASCII letter of the input text that is not one of the ten uppercase
operator letters A, D, E, F, I, N, O, R, T, U — so every other letter,
including every lowercase letter, is kept as a variable. -/
theorem c9_variable_list_invariants (input : List Char) :
    List.Pairwise (· < ·) (mkExpr input).vars ∧
    (mkExpr input).vars.Nodup ∧
    (∀ c : Char, c ∈ (mkExpr input).vars ↔
      (c ∈ input ∧ c.isAlpha = true ∧ c ∉ opLetters)) := by
  refine ⟨extract_variables_pairwise _, ?_, ?_⟩
  · exact (extract_variables_pairwise _).imp (fun h => ne_of_lt h)
  · intro c
    have h := extract_variables_mem (despace input) c
    rw [show (mkExpr input).vars = extract_variables (despace input) from rfl, h,
      mem_despace]
    constructor
    · rintro ⟨⟨hc, _⟩, ha, ho⟩
      exact ⟨hc, ha, ho⟩
    · rintro ⟨hc, ha, ho⟩
      refine ⟨⟨hc, ?_⟩, ha, ho⟩
      rintro rfl
      simp [Char.isAlpha, Char.isUpper, Char.isLower] at ha

/-- C3: variable handling is case-sensitive, not case-normalized: in
`"b OR B"` the two spellings of the same letter are extracted as two
distinct variables `['B', 'b']`, and evaluation tracks only the uppercase
one (the parsed expression is uppercased, so the value bound to `'b'` is
never substituted): the result follows `B` alone. -/
theorem c3_case_sensitive_variables :
    (mkExpr ("b OR B".data)).vars = ['B', 'b'] ∧
    evaluate (mkExpr ("b OR B".data)) [('B', true), ('b', false)] = .ok 1 ∧
    evaluate (mkExpr ("b OR B".data)) [('B', false), ('b', true)] = .ok 0 :=
  ⟨rfl, rfl, rfl⟩

/-- C4: the input `"A AND"` (trailing operator) raises no parse error
anywhere: construction succeeds with an empty variable list, the internal
`eval` failure is swallowed by the bare `except` which substitutes the
default result 0, and the generated one-row table is classified as a
Contradiction. -/
theorem c4_trailing_operator_default :
    (mkExpr ("A AND".data)).vars = [] ∧
    evaluate (mkExpr ("A AND".data)) [] = .ok 0 ∧
    create_truth_table (mkExpr ("A AND".data)) = .ok [[0]] ∧
    classify (tableResults [[0]]) = .contradiction :=
  ⟨rfl, rfl, rfl, rfl⟩

/-- C6: for the variable name `A` (an operator letter), `"A OR NOT A"`
extracts no variables at all, its single table row evaluates to 0 via the
swallowed `NameError` of the unsubstituted `A`, and the expression is
classified as a Contradiction instead of the claimed Tautology. -/
theorem c6_tautology_misclassified :
    (mkExpr ("A OR NOT A".data)).vars = [] ∧
    create_truth_table (mkExpr ("A OR NOT A".data)) = .ok [[0]] ∧
    classify (tableResults [[0]]) ≠ .tautology ∧
    classify (tableResults [[0]]) = .contradiction :=
  ⟨rfl, rfl, by decide, rfl⟩

/-- C7: `"A IMPLIES B"` does not have variable list [A, B]: `A` is an
operator letter and the letters M, P, L, S of the keyword `IMPLIES` are
not, so the extracted list is `['B', 'L', 'M', 'P', 'S']`; the table has
32 rows, every one of which evaluates to 0 (the unsubstituted `A` makes
`eval` fail and the bare `except` returns 0), so neither the claimed
4-row table nor the "material implication" label is produced. -/
theorem c7_implies_keyword_variables :
    (mkExpr ("A IMPLIES B".data)).vars = "BLMPS".data ∧
    create_truth_table (mkExpr ("A IMPLIES B".data)) =
      .ok ((combos 5).map (fun c => c.map b2i ++ [0])) ∧
    ((combos 5).map (fun c : List Bool => c.map b2i ++ [0])).length = 32 ∧
    tableResults ((combos 5).map (fun c : List Bool => c.map b2i ++ [0])) =
      List.replicate 32 0 :=
  ⟨rfl, rfl, rfl, rfl⟩

/-- C8: `identify_binary_operation` silently returns the generic label
"Custom operation" for a pattern outside the 16, instead of failing an
internal-consistency assertion; the fallback is even reachable through the
full pipeline: `"NOT B AND NOT C AND 2"` has exactly the two variables
B, C and produces the result pattern (2, 0, 0, 0) (Python `and` returns
its operand `2`). -/
theorem c8_custom_operation_fallback :
    (mkExpr ("NOT B AND NOT C AND 2".data)).vars = ['B', 'C'] ∧
    create_truth_table (mkExpr ("NOT B AND NOT C AND 2".data)) =
      .ok [[0, 0, 2], [0, 1, 0], [1, 0, 0], [1, 1, 0]] ∧
    tableResults [[0, 0, 2], [0, 1, 0], [1, 0, 0], [1, 1, 0]] = [2, 0, 0, 0] ∧
    identify_binary_operation [2, 0, 0, 0] = "Custom operation" :=
  ⟨rfl, rfl, rfl, rfl⟩

/-- C10 counterexample: `evaluate` is not total over partial assignments
and does not always return 0/1: on `"B"` with the empty assignment the
substitution loop raises (an uncaught `KeyError`), and on the text `"2"`
with the (total) empty assignment it returns 2. -/
theorem c10_counterexample :
    evaluate (mkExpr ("B".data)) [] = .error () ∧
    evaluate (mkExpr ("2".data)) [] = .ok 2 :=
  ⟨rfl, rfl⟩

/-- C10 amended: whenever the assignment binds every extracted variable,
`evaluate` never raises: the substitution loop succeeds and the result is
the caught-and-defaulted `eval` outcome, which is 0 whenever the internal
evaluation fails for any reason. -/
theorem c10_total_assignment_ok (input : List Char) (vv : List (Char × Bool))
    (h : ∀ v ∈ (mkExpr input).vars, (List.lookup v vv).isSome = true) :
    ∃ s, substVarsLoop (mkExpr input).vars vv (mkExpr input).parsed_expr = .ok s ∧
      evaluate (mkExpr input) vv = .ok (runPyEval (applyOps s)) ∧
      (∀ err : Unit, pyEvalTop (applyOps s) = .error err →
        runPyEval (applyOps s) = 0) := by
  obtain ⟨s, hs⟩ := substVarsLoop_ok (mkExpr input).vars vv (mkExpr input).parsed_expr h
  refine ⟨s, hs, by rw [evaluate, hs], ?_⟩
  intro err herr
  rw [runPyEval, herr]

/-- Closed witness for `c10_total_assignment_ok` at the text `"B"` with the
total assignment `[('B', true)]`. -/
theorem c10_total_assignment_ok_witness :
    ∃ s, substVarsLoop (mkExpr ("B".data)).vars [('B', true)]
        (mkExpr ("B".data)).parsed_expr = .ok s ∧
      evaluate (mkExpr ("B".data)) [('B', true)] = .ok (runPyEval (applyOps s)) ∧
      (∀ err : Unit, pyEvalTop (applyOps s) = .error err →
        runPyEval (applyOps s) = 0) :=
  c10_total_assignment_ok ("B".data) [('B', true)] (by decide)
